import Mathlib

/-!
# Pocket SDR device functions (`src/sdr_dev.c`): a shallow embedding

The embedding follows the libusb (non-CYUSB) build of `sdr_dev.c`.

Conventions.
* The constants `SDR_MAX_BUFF`, `SDR_SIZE_BUFF` and `SDR_MAX_CH` come from
  `pocket.h`, which is not part of the sources at hand: they are explicit
  arguments of the definitions that use them.
* C `int` indices and sizes are natural numbers; every value computed from
  them here is far below `2^31` for the sizes the device uses, so no
  wrap-around is modelled.
* Raw bytes (`uint8_t`) are natural numbers, decoded samples (`int8_t`) are
  integers.
* A `uint8_t *` to a raw buffer is the list of bytes it points to, or `none`
  for the `NULL` pointer.  An `int8_t *` output pointer is a memory region
  (a function of the byte offset) together with a base offset.
* Global and pointed-to state (the table `LUT`, the handle `*dev`, the output
  buffers) is passed explicitly.
* `fprintf (stderr, ...)` diagnostics are not modelled.
-/

namespace PocketSDR

/-! ## Quantization lookup table -/

/-- The table `static int8_t LUT[2][2][256]`, indexed `LUT[ch][k][b]`. -/
abbrev LUT_t := Nat → Nat → Nat → Int

/-- Static storage is zero-initialised. -/
def LUT_init : LUT_t := fun _ _ _ => 0

/-- Assignment `L[c][k][i] = v`. -/
def LUT_set (L : LUT_t) (c k i : Nat) (v : Int) : LUT_t :=
  fun c' k' i' => if c' = c ∧ k' = k ∧ i' = i then v else L c' k' i'

/-- The array `val[] = {+1, +3, -1, -3}` (2 bit, sign + magnitude). -/
def val : List Int := [1, 3, -1, -3]

/-- Body of the `for` loop of `gen_LUT` at index `i`. -/
def gen_LUT_body (L : LUT_t) (i : Nat) : LUT_t :=
  let L1 := LUT_set L 0 0 i (val.getD ((i >>> 0) &&& 0x3) 0)
  let L2 := LUT_set L1 0 1 i (val.getD ((i >>> 2) &&& 0x3) 0)
  let L3 := LUT_set L2 1 0 i (val.getD ((i >>> 4) &&& 0x3) 0)
  LUT_set L3 1 1 i (val.getD ((i >>> 6) &&& 0x3) 0)

/-- The function `gen_LUT`: nothing is done when `LUT[0][0][0]` is already
non-zero, otherwise the loop `for (i = 0; i < 256; i++)` fills the table. -/
def gen_LUT (L : LUT_t) : LUT_t :=
  if L 0 0 0 ≠ 0 then L
  else (List.range 256).foldl gen_LUT_body L

/-- Sign-magnitude value of a 2-bit field, as the specification words it:
`00 → +1`, `01 → +3`, `10 → -1`, `11 → -3`. -/
def signMag (f : Nat) : Int :=
  if f = 0 then 1 else if f = 1 then 3 else if f = 2 then -1 else -3

/-- The 2-bit field of byte `b` at bit offset `off`, that is bits
`[off : off+2)`. -/
def field2 (b off : Nat) : Nat := (b / 2 ^ off) % 4


/-! ## Sample format negotiation -/

/-- The transport seen from `read_sample_type`: the outcome of the call
`sdr_usb_req (dev->usb, 0, SDR_VR_REG_READ, wValue, data, 4)` as a function of
`wValue`: `none` when the request fails (returns 0), otherwise the four bytes
stored in `data[0..3]`. -/
abbrev usb_t := Nat → Option (Fin 4 → Nat)

/-- The request value `(uint16_t)((i << 8) + 1)` for channel `i`. -/
def req_value (i : Nat) : Nat := ((i <<< 8) + 1) % 65536

/-- Outcome of `read_sample_type`: the return value, the array `dev->IQ`
and the request values passed to `sdr_usb_req`, in the order of the calls. -/
structure sample_type_t where
  ret : Int
  IQ : Nat → Int
  reqs : List Nat

/-- The loop `for (i = 0; i < SDR_MAX_CH; i++)` of `read_sample_type` over
the remaining channel indices, with its early `return 0`. -/
def read_sample_type_loop (usb : usb_t) :
    List Nat → (Nat → Int) → List Nat → sample_type_t
  | [], IQ, reqs => ⟨1, IQ, reqs⟩
  | i :: rest, IQ, reqs =>
    match usb (req_value i) with
    | none => ⟨0, IQ, reqs ++ [req_value i]⟩
    | some data =>
      let v : Int := if ((data 0 >>> 3) &&& 1) ≠ 0 then 2 else 1
      read_sample_type_loop usb rest (fun j => if j = i then v else IQ j)
        (reqs ++ [req_value i])

/-- The function `read_sample_type`. -/
def read_sample_type (usb : usb_t) (SDR_MAX_CH : Nat) (IQ : Nat → Int) : sample_type_t :=
  read_sample_type_loop usb (List.range SDR_MAX_CH) IQ []

/-! ## Ring buffer of the device handle -/

/-- Bytes of a raw buffer. -/
abbrev Buf := List Nat

/-- A `uint8_t *`: `none` is `NULL`. -/
abbrev Ptr := Option Buf

/-- The fields of `sdr_dev_t` used by the ring buffer and the decoder:
`IQ[SDR_MAX_CH]`, `rp`, `wp` and `buff[SDR_MAX_BUFF]`. -/
structure sdr_dev_t where
  IQ : Nat → Int
  rp : Nat
  wp : Nat
  buff : Nat → Ptr

/-- The function `write_buff`: return value and updated handle. -/
def write_buff (SDR_MAX_BUFF : Nat) (dev : sdr_dev_t) (data : Ptr) : Int × sdr_dev_t :=
  let wp := (dev.wp + 1) % SDR_MAX_BUFF
  if wp = dev.rp then (0, dev)
  else (1, ⟨dev.IQ, dev.rp, wp, fun i => if i = wp then data else dev.buff i⟩)

/-- The function `read_buff` (libusb build): returned pointer and updated
handle. -/
def read_buff (SDR_MAX_BUFF : Nat) (dev : sdr_dev_t) : Ptr × sdr_dev_t :=
  if dev.rp = dev.wp then (none, dev)
  else (dev.buff dev.rp, ⟨dev.IQ, (dev.rp + 1) % SDR_MAX_BUFF, dev.wp, dev.buff⟩)

/-- The callback `transfer_cb`; `completed` says whether `transfer->status`
is `LIBUSB_TRANSFER_COMPLETED`, `buffer` is `transfer->buffer`.  The
resubmission of the transfer is outside the handle. -/
def transfer_cb (SDR_MAX_BUFF : Nat) (dev : sdr_dev_t) (completed : Bool) (buffer : Ptr) :
    sdr_dev_t :=
  if completed = false then dev
  else (write_buff SDR_MAX_BUFF dev buffer).2

/-- The handle as `sdr_dev_open` leaves it: `dev->rp = dev->wp = 0`, the
negotiated formats `IQ`, and `buff0` for the slots, which `sdr_dev_open`
does not assign. -/
def sdr_dev_open_state (IQ : Nat → Int) (buff0 : Nat → Ptr) : sdr_dev_t :=
  ⟨IQ, 0, 0, buff0⟩

/-- A call on the ring buffer: `write_buff` with a buffer, or `read_buff`. -/
inductive Op where
  | push (data : Ptr)
  | pop

/-- Effect of one call on the handle. -/
def step (SDR_MAX_BUFF : Nat) (dev : sdr_dev_t) : Op → sdr_dev_t
  | Op.push data => (write_buff SDR_MAX_BUFF dev data).2
  | Op.pop => (read_buff SDR_MAX_BUFF dev).2

/-- Effect of a sequence of calls. -/
def run (SDR_MAX_BUFF : Nat) (dev : sdr_dev_t) (ops : List Op) : sdr_dev_t :=
  ops.foldl (step SDR_MAX_BUFF) dev

/-- The quantity `(wp - rp) mod SDR_MAX_BUFF` of the specification. -/
def pending_count (SDR_MAX_BUFF : Nat) (dev : sdr_dev_t) : Int :=
  ((dev.wp : Int) - (dev.rp : Int)) % (SDR_MAX_BUFF : Int)

/-- Calls of `write_buff` with the buffers `ds`, in order: the return values
and the handle after the last call. -/
def push_all (SDR_MAX_BUFF : Nat) : sdr_dev_t → List Ptr → List Int × sdr_dev_t
  | dev, [] => ([], dev)
  | dev, d :: ds =>
    let w := write_buff SDR_MAX_BUFF dev d
    let r := push_all SDR_MAX_BUFF w.2 ds
    (w.1 :: r.1, r.2)

/-- The next `n` calls of `read_buff`: the returned pointers, in order, and
the handle after the last call. -/
def pop_n (SDR_MAX_BUFF : Nat) : Nat → sdr_dev_t → List Ptr × sdr_dev_t
  | 0, dev => ([], dev)
  | n + 1, dev =>
    let r := read_buff SDR_MAX_BUFF dev
    let t := pop_n SDR_MAX_BUFF n r.2
    (r.1 :: t.1, t.2)

/-! ## Decoder -/

/-- Memory behind an `int8_t *`, by byte offset. -/
abbrev Out := Nat → Int

/-- Assignment `buff[p] = v`. -/
def poke (buff : Out) (p : Nat) (v : Int) : Out :=
  fun q => if q = p then v else buff q

/-- The `int8_t` whose object representation is the byte `b`. -/
def toInt8 (b : Nat) : Int :=
  if b % 256 < 128 then ((b % 256 : Nat) : Int) else ((b % 256 : Nat) : Int) - 256

/-- The call `memcpy (buff + base, data, size)`. -/
def memcpy (buff : Out) (base : Nat) (data : Buf) (size : Nat) : Out :=
  fun q => if base ≤ q ∧ q < base + size then toInt8 (data.getD (q - base) 0) else buff q

/-- The loop `for (i = 0; i < size; i += 4)` of the I-sampling branch of
`copy_data`, entered at index `i`; `base` is the offset of the pointer
`buff` in its region.  The first argument bounds the number of iterations;
`size` iterations always suffice. -/
def copy_data_I (L : LUT_t) (data : Buf) (ch size base : Nat) : Nat → Nat → Out → Out
  | 0, _, buff => buff
  | fuel + 1, i, buff =>
    if i < size then
      let b0 := poke buff (base + i) (L ch 0 (data.getD i 0))
      let b1 := poke b0 (base + (i + 1)) (L ch 0 (data.getD (i + 1) 0))
      let b2 := poke b1 (base + (i + 2)) (L ch 0 (data.getD (i + 2) 0))
      let b3 := poke b2 (base + (i + 3)) (L ch 0 (data.getD (i + 3) 0))
      copy_data_I L data ch size base fuel (i + 4) b3
    else buff

/-- The loop `for (i = j = 0; i < size; i += 8, j += 4)` of the I/Q-sampling
branch of `copy_data`, entered at indices `i`, `j`.  The first argument
bounds the number of iterations; `size` iterations always suffice. -/
def copy_data_IQ (L : LUT_t) (data : Buf) (ch size base : Nat) :
    Nat → Nat → Nat → Out → Out
  | 0, _, _, buff => buff
  | fuel + 1, i, j, buff =>
    if i < size then
      let b0 := poke buff (base + i) (L ch 0 (data.getD j 0))
      let b1 := poke b0 (base + (i + 1)) (L ch 1 (data.getD j 0))
      let b2 := poke b1 (base + (i + 2)) (L ch 0 (data.getD (j + 1) 0))
      let b3 := poke b2 (base + (i + 3)) (L ch 1 (data.getD (j + 1) 0))
      let b4 := poke b3 (base + (i + 4)) (L ch 0 (data.getD (j + 2) 0))
      let b5 := poke b4 (base + (i + 5)) (L ch 1 (data.getD (j + 2) 0))
      let b6 := poke b5 (base + (i + 6)) (L ch 0 (data.getD (j + 3) 0))
      let b7 := poke b6 (base + (i + 7)) (L ch 1 (data.getD (j + 3) 0))
      copy_data_IQ L data ch size base fuel (i + 8) (j + 4) b7
    else buff

/-- The function `copy_data (data, ch, IQ, buff + base)` with the table `L`
in `LUT`: the returned size and the output region after the call. -/
def copy_data (L : LUT_t) (SDR_SIZE_BUFF : Nat) (data : Buf) (ch : Nat) (IQ : Int)
    (buff : Out) (base : Nat) : Nat × Out :=
  let size := SDR_SIZE_BUFF
  if IQ = 0 then
    if ch ≠ 0 then (0, buff)
    else (size, memcpy buff base data size)
  else if IQ = 1 then
    (size, copy_data_I L data ch size base size 0 buff)
  else if IQ = 2 then
    let size := size * 2
    (size, copy_data_IQ L data ch size base size 0 0 buff)
  else (size, buff)

/-- Outcome of `sdr_dev_data`: the return value, `n[0]`, `n[1]`, the two
output regions `buff[0]`, `buff[1]` and the handle. -/
structure data_t where
  ret : Nat
  n0 : Nat
  n1 : Nat
  buff0 : Out
  buff1 : Out
  dev : sdr_dev_t

/-- The loop `while ((data = read_buff (dev)))` of `sdr_dev_data`.  The first
argument bounds the number of iterations: `none` means the bound was reached
before the loop ended. -/
def sdr_dev_data_loop (L : LUT_t) (SDR_MAX_BUFF SDR_SIZE_BUFF : Nat) :
    Nat → sdr_dev_t → Out → Out → Nat → Nat → Nat → Option data_t
  | 0, _, _, _, _, _, _ => none
  | fuel + 1, dev, buff0, buff1, n0, n1, size =>
    match read_buff SDR_MAX_BUFF dev with
    | (none, dev1) => some ⟨size, n0, n1, buff0, buff1, dev1⟩
    | (some data, dev1) =>
      let r0 := copy_data L SDR_SIZE_BUFF data 0 (dev1.IQ 0) buff0 n0
      let r1 := copy_data L SDR_SIZE_BUFF data 1 (dev1.IQ 1) buff1 n1
      sdr_dev_data_loop L SDR_MAX_BUFF SDR_SIZE_BUFF fuel dev1 r0.2 r1.2
        (n0 + r0.1) (n1 + r1.1) (size + SDR_SIZE_BUFF)

/-- The function `sdr_dev_data`, with `n[0] = n[1] = 0` and `size = 0` on
entry of the loop. -/
def sdr_dev_data (L : LUT_t) (SDR_MAX_BUFF SDR_SIZE_BUFF : Nat) (fuel : Nat)
    (dev : sdr_dev_t) (buff0 buff1 : Out) : Option data_t :=
  sdr_dev_data_loop L SDR_MAX_BUFF SDR_SIZE_BUFF fuel dev buff0 buff1 0 0 0

/-! ## End-to-end scenario -/

/-- A raw buffer of `SDR_SIZE_BUFF` bytes `0b01101001`. -/
def fixed_buffer (SDR_SIZE_BUFF : Nat) : Buf := List.replicate SDR_SIZE_BUFF 0x69

/-- The scenario of the specification: a handle as `sdr_dev_open` leaves it,
both channels in I/Q format and slots `buff0`, then three completed transfers
of `fixed_buffer` through `transfer_cb`, then one call of `sdr_dev_data` with
the generated table and zeroed output regions. -/
def end_to_end (SDR_MAX_BUFF SDR_SIZE_BUFF : Nat) (buff0 : Nat → Ptr) (fuel : Nat) :
    Option data_t :=
  let d : Ptr := some (fixed_buffer SDR_SIZE_BUFF)
  let dev0 := sdr_dev_open_state (fun _ => 2) buff0
  let dev1 := transfer_cb SDR_MAX_BUFF dev0 true d
  let dev2 := transfer_cb SDR_MAX_BUFF dev1 true d
  let dev3 := transfer_cb SDR_MAX_BUFF dev2 true d
  sdr_dev_data (gen_LUT LUT_init) SDR_MAX_BUFF SDR_SIZE_BUFF fuel dev3 (fun _ => 0) (fun _ => 0)

/-! ## Quantization lookup table: proofs -/

theorem gen_LUT_body_apply (L : LUT_t) (i c k b : Nat) (hc : c < 2) (hk : k < 2) :
    gen_LUT_body L i c k b
      = if b = i then val.getD ((i >>> (4 * c + 2 * k)) &&& 0x3) 0 else L c k b := by
  unfold gen_LUT_body LUT_set
  have hc' : c = 0 ∨ c = 1 := by omega
  have hk' : k = 0 ∨ k = 1 := by omega
  rcases hc' with rfl | rfl <;> rcases hk' with rfl | rfl <;> by_cases hb : b = i <;> simp [hb]

theorem gen_LUT_loop_apply (L : LUT_t) (n c k b : Nat) (hc : c < 2) (hk : k < 2) :
    (List.range n).foldl gen_LUT_body L c k b
      = if b < n then val.getD ((b >>> (4 * c + 2 * k)) &&& 0x3) 0 else L c k b := by
  induction n with
  | zero => simp
  | succ n ih =>
    rw [List.range_succ, List.foldl_append, List.foldl_cons, List.foldl_nil,
      gen_LUT_body_apply _ _ _ _ _ hc hk, ih]
    by_cases h1 : b = n
    · subst h1; simp
    · by_cases h2 : b < n
      · have : b < n + 1 := by omega
        simp [h1, h2, this]
      · have : ¬ b < n + 1 := by omega
        simp [h1, h2, this]

theorem gen_LUT_init_apply (c k b : Nat) (hc : c < 2) (hk : k < 2) (hb : b < 256) :
    gen_LUT LUT_init c k b = val.getD ((b >>> (4 * c + 2 * k)) &&& 0x3) 0 := by
  unfold gen_LUT
  rw [if_neg (by simp [LUT_init]), gen_LUT_loop_apply _ _ _ _ _ hc hk, if_pos hb]

theorem gen_LUT_idem : gen_LUT (gen_LUT LUT_init) = gen_LUT LUT_init := by
  have h : gen_LUT LUT_init 0 0 0 = 1 := by
    rw [gen_LUT_init_apply 0 0 0 (by decide) (by decide) (by decide)]; decide
  have hskip : ∀ L : LUT_t, L 0 0 0 ≠ 0 → gen_LUT L = L := fun L hL => by
    unfold gen_LUT; rw [if_pos hL]
  exact hskip _ (by rw [h]; decide)

theorem gen_LUT_iterate (n : Nat) : gen_LUT^[n + 1] LUT_init = gen_LUT LUT_init := by
  induction n with
  | zero => rfl
  | succ n ih => rw [Function.iterate_succ_apply', ih, gen_LUT_idem]

theorem val_eq_signMag (x : Nat) : val.getD (x &&& 0x3) 0 = signMag (x % 4) := by
  have h : x &&& 0x3 = x % 4 := Nat.and_pow_two_sub_one_eq_mod x 2
  rw [h]
  have h4 : x % 4 < 4 := Nat.mod_lt _ (by decide)
  generalize x % 4 = r at h4
  interval_cases r <;> decide

theorem signMag_mem (f : Nat) : signMag f = 1 ∨ signMag f = 3 ∨ signMag f = -1 ∨ signMag f = -3 := by
  unfold signMag
  split_ifs <;> simp

/-- Every entry of the generated table, in terms of the 2-bit field. -/
theorem LUT_entry (c k b : Nat) (hc : c < 2) (hk : k < 2) (hb : b < 256) :
    gen_LUT LUT_init c k b = signMag (field2 b (4 * c + 2 * k)) := by
  rw [gen_LUT_init_apply c k b hc hk hb, val_eq_signMag, field2, Nat.shiftRight_eq_div_pow]

/-- C1: after `gen_LUT` has run (once or more, starting from the zero-initialised
static table), for every byte `b < 256`, channel `c < 2` and component `k < 2`
the entry `LUT[c][k][b]` is the sign-magnitude value (`00 → +1`, `01 → +3`,
`10 → -1`, `11 → -3`) of the 2-bit field of `b` at bit offset `4*c + 2*k`, and
it lies in `{+1, +3, -1, -3}`. -/
theorem C1_gen_LUT_table (n c k b : Nat) (hc : c < 2) (hk : k < 2) (hb : b < 256) :
    (gen_LUT^[n + 1] LUT_init) c k b = signMag (field2 b (4 * c + 2 * k))
    ∧ ((gen_LUT^[n + 1] LUT_init) c k b = 1 ∨ (gen_LUT^[n + 1] LUT_init) c k b = 3
        ∨ (gen_LUT^[n + 1] LUT_init) c k b = -1 ∨ (gen_LUT^[n + 1] LUT_init) c k b = -3) := by
  rw [gen_LUT_iterate, LUT_entry c k b hc hk hb]
  exact ⟨rfl, signMag_mem _⟩

/-- Witness for C1: channel 1, component Q, byte `0b01101001`: bits `[6:8)`
are `01`, which decodes to `+3`. -/
theorem C1_gen_LUT_table_witness :
    (gen_LUT^[0 + 1] LUT_init) 1 1 0x69 = signMag (field2 0x69 (4 * 1 + 2 * 1))
    ∧ ((gen_LUT^[0 + 1] LUT_init) 1 1 0x69 = 1 ∨ (gen_LUT^[0 + 1] LUT_init) 1 1 0x69 = 3
        ∨ (gen_LUT^[0 + 1] LUT_init) 1 1 0x69 = -1 ∨ (gen_LUT^[0 + 1] LUT_init) 1 1 0x69 = -3) :=
  C1_gen_LUT_table 0 1 1 0x69 (by decide) (by decide) (by decide)

/-! ## Decoder: proofs -/

theorem poke_apply (buff : Out) (p : Nat) (v : Int) (q : Nat) :
    poke buff p v q = if q = p then v else buff q := rfl

/-- The iteration bound of the I loop is not what ends it: once
`size ≤ i + fuel`, a larger bound gives the same result. -/
theorem copy_data_I_fuel (L : LUT_t) (data : Buf) (ch size base : Nat) :
    ∀ (fuel i : Nat) (buff : Out), size ≤ i + fuel →
      copy_data_I L data ch size base (fuel + 1) i buff
        = copy_data_I L data ch size base fuel i buff := by
  intro fuel
  induction fuel with
  | zero =>
    intro i buff h
    simp only [copy_data_I]
    rw [if_neg (by omega)]
  | succ fuel ih =>
    intro i buff h
    conv_rhs => rw [copy_data_I]
    conv_lhs => rw [copy_data_I]
    by_cases hlt : i < size
    · rw [if_pos hlt, if_pos hlt]
      exact ih (i + 4) _ (by omega)
    · rw [if_neg hlt, if_neg hlt]

/-- The iteration bound of the I/Q loop is not what ends it: once
`size ≤ i + fuel`, a larger bound gives the same result. -/
theorem copy_data_IQ_fuel (L : LUT_t) (data : Buf) (ch size base : Nat) :
    ∀ (fuel i j : Nat) (buff : Out), size ≤ i + fuel →
      copy_data_IQ L data ch size base (fuel + 1) i j buff
        = copy_data_IQ L data ch size base fuel i j buff := by
  intro fuel
  induction fuel with
  | zero =>
    intro i j buff h
    simp only [copy_data_IQ]
    rw [if_neg (by omega)]
  | succ fuel ih =>
    intro i j buff h
    conv_rhs => rw [copy_data_IQ]
    conv_lhs => rw [copy_data_IQ]
    by_cases hlt : i < size
    · rw [if_pos hlt, if_pos hlt]
      exact ih (i + 8) (j + 4) _ (by omega)
    · rw [if_neg hlt, if_neg hlt]

/-- The I/Q loop entered at its `k`-th iteration, for a size of `8 * m`
bytes: the bytes from offset `8 * k` to `8 * m` behind `buff + base` receive
the table values, every other byte is kept.  Any iteration bound of at least
`m - k` gives this result. -/
theorem copy_data_IQ_apply (L : LUT_t) (data : Buf) (ch base m : Nat) :
    ∀ (fuel k : Nat) (buff : Out), k ≤ m → m - k ≤ fuel → ∀ q,
      copy_data_IQ L data ch (8 * m) base fuel (8 * k) (4 * k) buff q
        = if base + 8 * k ≤ q ∧ q < base + 8 * m
          then L ch ((q - base) % 2) (data.getD ((q - base) / 2) 0) else buff q := by
  intro fuel
  induction fuel with
  | zero =>
    intro k buff hk hf q
    have : ¬ (base + 8 * k ≤ q ∧ q < base + 8 * m) := by omega
    simp [copy_data_IQ, this]
  | succ fuel ih =>
    intro k buff hk hf q
    unfold copy_data_IQ
    by_cases hlt : 8 * k < 8 * m
    · rw [if_pos hlt]
      have e1 : 8 * k + 8 = 8 * (k + 1) := by ring
      have e2 : 4 * k + 4 = 4 * (k + 1) := by ring
      show copy_data_IQ L data ch (8 * m) base fuel (8 * k + 8) (4 * k + 4) _ q = _
      rw [e1, e2, ih (k + 1) _ (by omega) (by omega) q]
      by_cases hq : base + 8 * (k + 1) ≤ q ∧ q < base + 8 * m
      · have : base + 8 * k ≤ q ∧ q < base + 8 * m := by omega
        rw [if_pos hq, if_pos this]
      · rw [if_neg hq]
        by_cases hr : base + 8 * k ≤ q ∧ q < base + 8 * m
        · rw [if_pos hr]
          have hq8 : q - base - 8 * k < 8 := by omega
          obtain ⟨t, ht, rfl⟩ : ∃ t, t < 8 ∧ q = base + (8 * k + t) :=
            ⟨q - base - 8 * k, hq8, by omega⟩
          have hd : (base + (8 * k + t) - base) / 2 = 4 * k + t / 2 := by omega
          have hm : (base + (8 * k + t) - base) % 2 = t % 2 := by omega
          rw [hd, hm]
          interval_cases t <;> simp [poke_apply]
        · rw [if_neg hr]
          simp only [poke_apply]
          repeat rw [if_neg (by omega)]
    · rw [if_neg hlt]
      have : ¬ (base + 8 * k ≤ q ∧ q < base + 8 * m) := by omega
      rw [if_neg this]

/-- The I loop entered at its `k`-th iteration, for a size of `4 * m` bytes. -/
theorem copy_data_I_apply (L : LUT_t) (data : Buf) (ch base m : Nat) :
    ∀ (fuel k : Nat) (buff : Out), k ≤ m → m - k ≤ fuel → ∀ q,
      copy_data_I L data ch (4 * m) base fuel (4 * k) buff q
        = if base + 4 * k ≤ q ∧ q < base + 4 * m
          then L ch 0 (data.getD (q - base) 0) else buff q := by
  intro fuel
  induction fuel with
  | zero =>
    intro k buff hk hf q
    have : ¬ (base + 4 * k ≤ q ∧ q < base + 4 * m) := by omega
    simp [copy_data_I, this]
  | succ fuel ih =>
    intro k buff hk hf q
    unfold copy_data_I
    by_cases hlt : 4 * k < 4 * m
    · rw [if_pos hlt]
      have e1 : 4 * k + 4 = 4 * (k + 1) := by ring
      show copy_data_I L data ch (4 * m) base fuel (4 * k + 4) _ q = _
      rw [e1, ih (k + 1) _ (by omega) (by omega) q]
      by_cases hq : base + 4 * (k + 1) ≤ q ∧ q < base + 4 * m
      · have : base + 4 * k ≤ q ∧ q < base + 4 * m := by omega
        rw [if_pos hq, if_pos this]
      · rw [if_neg hq]
        by_cases hr : base + 4 * k ≤ q ∧ q < base + 4 * m
        · rw [if_pos hr]
          have hq4 : q - base - 4 * k < 4 := by omega
          obtain ⟨t, ht, rfl⟩ : ∃ t, t < 4 ∧ q = base + (4 * k + t) :=
            ⟨q - base - 4 * k, hq4, by omega⟩
          have hd : base + (4 * k + t) - base = 4 * k + t := by omega
          rw [hd]
          interval_cases t <;> simp [poke_apply]
        · rw [if_neg hr]
          simp only [poke_apply]
          repeat rw [if_neg (by omega)]
    · rw [if_neg hlt]
      have : ¬ (base + 4 * k ≤ q ∧ q < base + 4 * m) := by omega
      rw [if_neg this]

/-- The I/Q branch of `copy_data` for a buffer size that is a multiple of 4,
with any table. -/
theorem copy_data_IQ_run (L : LUT_t) (S : Nat) (data : Buf) (ch : Nat) (buff : Out)
    (base : Nat) (hS : 4 ∣ S) :
    (copy_data L S data ch 2 buff base).1 = 2 * S
    ∧ ∀ q, (copy_data L S data ch 2 buff base).2 q
        = if base ≤ q ∧ q < base + 2 * S
          then L ch ((q - base) % 2) (data.getD ((q - base) / 2) 0) else buff q := by
  obtain ⟨m, rfl⟩ := hS
  have h8 : 4 * m * 2 = 8 * m := by ring
  refine ⟨by simp [copy_data]; ring, fun q => ?_⟩
  have h := copy_data_IQ_apply L data ch base m (8 * m) 0 buff (Nat.zero_le _) (by omega) q
  have e : (copy_data L (4 * m) data ch 2 buff base).2
      = copy_data_IQ L data ch (8 * m) base (8 * m) (8 * 0) (4 * 0) buff := by
    simp [copy_data, h8]
  rw [e, h]
  have : (base + 8 * 0 ≤ q ∧ q < base + 8 * m) ↔ (base ≤ q ∧ q < base + 2 * (4 * m)) := by
    omega
  simp only [this]

/-- The I branch of `copy_data` for a buffer size that is a multiple of 4,
with any table. -/
theorem copy_data_I_run (L : LUT_t) (S : Nat) (data : Buf) (ch : Nat) (buff : Out)
    (base : Nat) (hS : 4 ∣ S) :
    (copy_data L S data ch 1 buff base).1 = S
    ∧ ∀ q, (copy_data L S data ch 1 buff base).2 q
        = if base ≤ q ∧ q < base + S
          then L ch 0 (data.getD (q - base) 0) else buff q := by
  obtain ⟨m, rfl⟩ := hS
  refine ⟨by simp [copy_data], fun q => ?_⟩
  have h := copy_data_I_apply L data ch base m (4 * m) 0 buff (Nat.zero_le _) (by omega) q
  have e : (copy_data L (4 * m) data ch 1 buff base).2
      = copy_data_I L data ch (4 * m) base (4 * m) (4 * 0) buff := by
    simp [copy_data]
  rw [e, h]
  have : (base + 4 * 0 ≤ q ∧ q < base + 4 * m) ↔ (base ≤ q ∧ q < base + 4 * m) := by
    omega
  simp only [this]

theorem getD_lt_256 (data : Buf) (hbytes : ∀ x ∈ data, x < 256) (j : Nat)
    (hj : j < data.length) : data.getD j 0 < 256 := by
  rw [List.getD_eq_getElem _ _ hj]
  exact hbytes _ (List.getElem_mem hj)

theorem LUT_entry_mem (c k b : Nat) (hc : c < 2) (hk : k < 2) (hb : b < 256) :
    gen_LUT LUT_init c k b = 1 ∨ gen_LUT LUT_init c k b = 3
      ∨ gen_LUT LUT_init c k b = -1 ∨ gen_LUT LUT_init c k b = -3 := by
  rw [LUT_entry c k b hc hk hb]
  exact signMag_mem _

/-- C2: for a raw buffer `data` of `S = SDR_SIZE_BUFF` bytes, `S` a
multiple of 4, and a channel `c < 2`, `copy_data (data, c, 2, buff + base)`
with the generated table returns `2 * S`, stores `LUT[c][0][data[j]]` at
output index `2 * j` and `LUT[c][1][data[j]]` at `2 * j + 1` for every
`j < S`, each a value of `{+1, +3, -1, -3}`, and writes no byte outside these
`2 * S` ones. -/
theorem C2_copy_data_IQ (S : Nat) (data : Buf) (c : Nat) (buff : Out) (base : Nat)
    (hS : 4 ∣ S) (hlen : data.length = S) (hbytes : ∀ x ∈ data, x < 256) (hc : c < 2) :
    (copy_data (gen_LUT LUT_init) S data c 2 buff base).1 = 2 * S
    ∧ (∀ j, j < S →
        (copy_data (gen_LUT LUT_init) S data c 2 buff base).2 (base + 2 * j)
            = gen_LUT LUT_init c 0 (data.getD j 0)
        ∧ (copy_data (gen_LUT LUT_init) S data c 2 buff base).2 (base + (2 * j + 1))
            = gen_LUT LUT_init c 1 (data.getD j 0)
        ∧ (gen_LUT LUT_init c 0 (data.getD j 0) = 1 ∨ gen_LUT LUT_init c 0 (data.getD j 0) = 3
            ∨ gen_LUT LUT_init c 0 (data.getD j 0) = -1
            ∨ gen_LUT LUT_init c 0 (data.getD j 0) = -3)
        ∧ (gen_LUT LUT_init c 1 (data.getD j 0) = 1 ∨ gen_LUT LUT_init c 1 (data.getD j 0) = 3
            ∨ gen_LUT LUT_init c 1 (data.getD j 0) = -1
            ∨ gen_LUT LUT_init c 1 (data.getD j 0) = -3))
    ∧ (∀ q, q < base ∨ base + 2 * S ≤ q →
        (copy_data (gen_LUT LUT_init) S data c 2 buff base).2 q = buff q) := by
  obtain ⟨h1, h2⟩ := copy_data_IQ_run (gen_LUT LUT_init) S data c buff base hS
  refine ⟨h1, fun j hj => ?_, fun q hq => ?_⟩
  · have hb : data.getD j 0 < 256 := getD_lt_256 data hbytes j (by omega)
    refine ⟨?_, ?_, LUT_entry_mem c 0 _ hc (by decide) hb, LUT_entry_mem c 1 _ hc (by decide) hb⟩
    · rw [h2, if_pos (by omega)]
      have e1 : (base + 2 * j - base) % 2 = 0 := by omega
      have e2 : (base + 2 * j - base) / 2 = j := by omega
      rw [e1, e2]
    · rw [h2, if_pos (by omega)]
      have e1 : (base + (2 * j + 1) - base) % 2 = 1 := by omega
      have e2 : (base + (2 * j + 1) - base) / 2 = j := by omega
      rw [e1, e2]
  · rw [h2, if_neg (by omega)]

/-- Witness for C2: four raw bytes decoded for channel 1 at base offset 2. -/
theorem C2_copy_data_IQ_witness :
    (copy_data (gen_LUT LUT_init) 4 [0x69, 0x00, 0xFF, 0x1B] 1 2 (fun _ => 0) 2).1 = 2 * 4
    ∧ (∀ j, j < 4 →
        (copy_data (gen_LUT LUT_init) 4 [0x69, 0x00, 0xFF, 0x1B] 1 2 (fun _ => 0) 2).2
            (2 + 2 * j)
            = gen_LUT LUT_init 1 0 (([0x69, 0x00, 0xFF, 0x1B] : Buf).getD j 0)
        ∧ (copy_data (gen_LUT LUT_init) 4 [0x69, 0x00, 0xFF, 0x1B] 1 2 (fun _ => 0) 2).2
            (2 + (2 * j + 1))
            = gen_LUT LUT_init 1 1 (([0x69, 0x00, 0xFF, 0x1B] : Buf).getD j 0)
        ∧ (gen_LUT LUT_init 1 0 (([0x69, 0x00, 0xFF, 0x1B] : Buf).getD j 0) = 1
            ∨ gen_LUT LUT_init 1 0 (([0x69, 0x00, 0xFF, 0x1B] : Buf).getD j 0) = 3
            ∨ gen_LUT LUT_init 1 0 (([0x69, 0x00, 0xFF, 0x1B] : Buf).getD j 0) = -1
            ∨ gen_LUT LUT_init 1 0 (([0x69, 0x00, 0xFF, 0x1B] : Buf).getD j 0) = -3)
        ∧ (gen_LUT LUT_init 1 1 (([0x69, 0x00, 0xFF, 0x1B] : Buf).getD j 0) = 1
            ∨ gen_LUT LUT_init 1 1 (([0x69, 0x00, 0xFF, 0x1B] : Buf).getD j 0) = 3
            ∨ gen_LUT LUT_init 1 1 (([0x69, 0x00, 0xFF, 0x1B] : Buf).getD j 0) = -1
            ∨ gen_LUT LUT_init 1 1 (([0x69, 0x00, 0xFF, 0x1B] : Buf).getD j 0) = -3))
    ∧ (∀ q, q < 2 ∨ 2 + 2 * 4 ≤ q →
        (copy_data (gen_LUT LUT_init) 4 [0x69, 0x00, 0xFF, 0x1B] 1 2 (fun _ => 0) 2).2 q
          = (fun _ => 0) q) :=
  C2_copy_data_IQ 4 [0x69, 0x00, 0xFF, 0x1B] 1 (fun _ => 0) 2 (by decide) (by decide)
    (by decide) (by decide)

theorem toInt8_byte (b : Nat) (hb : b < 256) : toInt8 b % 256 = (b : Int) := by
  unfold toInt8
  have hm : b % 256 = b := Nat.mod_eq_of_lt hb
  rw [hm]
  split_ifs <;> omega

/-- C9: for a raw buffer `data` of `S = SDR_SIZE_BUFF` bytes, `S` a
multiple of 4, and a channel `c < 2`, `copy_data (data, c, 1, buff + base)`
with the generated table returns `S`, stores `LUT[c][0][data[i]]` at output
index `i` for every `i < S`, which is the sign-magnitude value of the 2-bit
field of `data[i]` at bit offset `4 * c` (bits `[0:2)` for channel 0, bits
`[4:6)` for channel 1), and writes no byte outside these `S` ones. -/
theorem C9_copy_data_I (S : Nat) (data : Buf) (c : Nat) (buff : Out) (base : Nat)
    (hS : 4 ∣ S) (hlen : data.length = S) (hbytes : ∀ x ∈ data, x < 256) (hc : c < 2) :
    (copy_data (gen_LUT LUT_init) S data c 1 buff base).1 = S
    ∧ (∀ i, i < S →
        (copy_data (gen_LUT LUT_init) S data c 1 buff base).2 (base + i)
            = gen_LUT LUT_init c 0 (data.getD i 0)
        ∧ (copy_data (gen_LUT LUT_init) S data c 1 buff base).2 (base + i)
            = signMag (field2 (data.getD i 0) (4 * c)))
    ∧ (∀ q, q < base ∨ base + S ≤ q →
        (copy_data (gen_LUT LUT_init) S data c 1 buff base).2 q = buff q) := by
  obtain ⟨h1, h2⟩ := copy_data_I_run (gen_LUT LUT_init) S data c buff base hS
  refine ⟨h1, fun i hi => ?_, fun q hq => ?_⟩
  · have hb : data.getD i 0 < 256 := getD_lt_256 data hbytes i (by omega)
    have e : base + i - base = i := by omega
    have hv : (copy_data (gen_LUT LUT_init) S data c 1 buff base).2 (base + i)
        = gen_LUT LUT_init c 0 (data.getD i 0) := by
      rw [h2, if_pos (by omega), e]
    refine ⟨hv, ?_⟩
    rw [hv, LUT_entry c 0 _ hc (by decide) hb, Nat.mul_zero, Nat.add_zero]
  · rw [h2, if_neg (by omega)]

/-- Witness for C9: four raw bytes decoded for channel 1 at base offset 3. -/
theorem C9_copy_data_I_witness :
    (copy_data (gen_LUT LUT_init) 4 [0x69, 0x00, 0xFF, 0x1B] 1 1 (fun _ => 0) 3).1 = 4
    ∧ (∀ i, i < 4 →
        (copy_data (gen_LUT LUT_init) 4 [0x69, 0x00, 0xFF, 0x1B] 1 1 (fun _ => 0) 3).2 (3 + i)
            = gen_LUT LUT_init 1 0 (([0x69, 0x00, 0xFF, 0x1B] : Buf).getD i 0)
        ∧ (copy_data (gen_LUT LUT_init) 4 [0x69, 0x00, 0xFF, 0x1B] 1 1 (fun _ => 0) 3).2 (3 + i)
            = signMag (field2 (([0x69, 0x00, 0xFF, 0x1B] : Buf).getD i 0) (4 * 1)))
    ∧ (∀ q, q < 3 ∨ 3 + 4 ≤ q →
        (copy_data (gen_LUT LUT_init) 4 [0x69, 0x00, 0xFF, 0x1B] 1 1 (fun _ => 0) 3).2 q
          = (fun _ => 0) q) :=
  C9_copy_data_I 4 [0x69, 0x00, 0xFF, 0x1B] 1 (fun _ => 0) 3 (by decide) (by decide)
    (by decide) (by decide)

/-- C8: for a raw buffer `data` of `S = SDR_SIZE_BUFF` bytes, whatever the
table holds, `copy_data` in RAW format (`IQ = 0`) on channel 0 returns `S` and
copies the `S` bytes verbatim (output byte `i` is the `int8_t` with the bit
pattern of `data[i]`) without touching any other byte, while on every
channel `ch ≠ 0` it returns 0 and leaves the output as it was. -/
theorem C8_copy_data_raw (L : LUT_t) (S : Nat) (data : Buf) (buff : Out) (base : Nat)
    (hlen : data.length = S) (hbytes : ∀ x ∈ data, x < 256) :
    (copy_data L S data 0 0 buff base).1 = S
    ∧ (∀ i, i < S →
        (copy_data L S data 0 0 buff base).2 (base + i) = toInt8 (data.getD i 0)
        ∧ (copy_data L S data 0 0 buff base).2 (base + i) % 256 = (data.getD i 0 : Int))
    ∧ (∀ q, q < base ∨ base + S ≤ q → (copy_data L S data 0 0 buff base).2 q = buff q)
    ∧ (∀ ch, ch ≠ 0 → copy_data L S data ch 0 buff base = (0, buff)) := by
  have e : copy_data L S data 0 0 buff base = (S, memcpy buff base data S) := by
    simp [copy_data]
  rw [e]
  refine ⟨rfl, fun i hi => ?_, fun q hq => ?_, fun ch hch => ?_⟩
  · have hb : data.getD i 0 < 256 := getD_lt_256 data hbytes i (by omega)
    have hv : memcpy buff base data S (base + i) = toInt8 (data.getD i 0) := by
      unfold memcpy
      rw [if_pos (by omega)]
      have : base + i - base = i := by omega
      rw [this]
    exact ⟨hv, by show memcpy buff base data S (base + i) % 256 = _; rw [hv, toInt8_byte _ hb]⟩
  · show memcpy buff base data S q = buff q
    unfold memcpy
    rw [if_neg (by omega)]
  · simp [copy_data, hch]

/-- Witness for C8: four raw bytes at base offset 1. -/
theorem C8_copy_data_raw_witness :
    (copy_data LUT_init 4 [0x69, 0x00, 0xFF, 0x80] 0 0 (fun _ => 5) 1).1 = 4
    ∧ (∀ i, i < 4 →
        (copy_data LUT_init 4 [0x69, 0x00, 0xFF, 0x80] 0 0 (fun _ => 5) 1).2 (1 + i)
            = toInt8 (([0x69, 0x00, 0xFF, 0x80] : Buf).getD i 0)
        ∧ (copy_data LUT_init 4 [0x69, 0x00, 0xFF, 0x80] 0 0 (fun _ => 5) 1).2 (1 + i) % 256
            = ((([0x69, 0x00, 0xFF, 0x80] : Buf).getD i 0 : Nat) : Int))
    ∧ (∀ q, q < 1 ∨ 1 + 4 ≤ q →
        (copy_data LUT_init 4 [0x69, 0x00, 0xFF, 0x80] 0 0 (fun _ => 5) 1).2 q
          = (fun _ => 5) q)
    ∧ (∀ ch, ch ≠ 0 →
        copy_data LUT_init 4 [0x69, 0x00, 0xFF, 0x80] ch 0 (fun _ => 5) 1
          = (0, (fun _ => 5))) :=
  C8_copy_data_raw LUT_init 4 [0x69, 0x00, 0xFF, 0x80] (fun _ => 5) 1 (by decide) (by decide)

/-! ## Sample format negotiation: proofs -/

theorem enable_bit (x : Nat) : ((x >>> 3) &&& 1) ≠ 0 ↔ (x / 2 ^ 3) % 2 = 1 := by
  have h : (x >>> 3) &&& 1 = (x >>> 3) % 2 := Nat.and_pow_two_sub_one_eq_mod (x >>> 3) 1
  rw [h, Nat.shiftRight_eq_div_pow]
  omega

theorem read_sample_type_loop_ret (usb : usb_t) :
    ∀ (chs : List Nat) (IQ : Nat → Int) (reqs : List Nat),
      ((read_sample_type_loop usb chs IQ reqs).ret = 1
          ∧ ∀ i ∈ chs, (usb (req_value i)).isSome = true)
      ∨ ((read_sample_type_loop usb chs IQ reqs).ret = 0
          ∧ ∃ i ∈ chs, usb (req_value i) = none) := by
  intro chs
  induction chs with
  | nil => intro IQ reqs; left; simp [read_sample_type_loop]
  | cons i rest ih =>
    intro IQ reqs
    unfold read_sample_type_loop
    cases h : usb (req_value i) with
    | none => right; exact ⟨rfl, i, List.mem_cons_self _ _, h⟩
    | some data =>
      rcases ih (fun j => if j = i then (if ((data 0 >>> 3) &&& 1) ≠ 0 then 2 else 1) else IQ j)
          (reqs ++ [req_value i]) with ⟨h1, h2⟩ | ⟨h1, j, hj, h2⟩
      · left
        refine ⟨h1, fun j hj => ?_⟩
        rcases List.mem_cons.mp hj with rfl | hj
        · simp [h]
        · exact h2 j hj
      · right
        exact ⟨h1, j, List.mem_cons_of_mem _ hj, h2⟩

theorem read_sample_type_loop_IQ (usb : usb_t) :
    ∀ (chs : List Nat) (IQ : Nat → Int) (reqs : List Nat), chs.Nodup →
      (read_sample_type_loop usb chs IQ reqs).ret = 1 →
      (∀ i ∈ chs, ∃ data, usb (req_value i) = some data
          ∧ (read_sample_type_loop usb chs IQ reqs).IQ i
              = if (data 0 / 2 ^ 3) % 2 = 1 then 2 else 1)
      ∧ (∀ j, j ∉ chs → (read_sample_type_loop usb chs IQ reqs).IQ j = IQ j) := by
  intro chs
  induction chs with
  | nil => intro IQ reqs _ _; simp [read_sample_type_loop]
  | cons i rest ih =>
    intro IQ reqs hnd
    unfold read_sample_type_loop
    cases h : usb (req_value i) with
    | none => intro hret; simp at hret
    | some data =>
      intro hret
      obtain ⟨hi, hrest⟩ := List.nodup_cons.mp hnd
      obtain ⟨ih1, ih2⟩ := ih _ _ hrest hret
      refine ⟨fun j hj => ?_, fun j hj => ?_⟩
      · rcases List.mem_cons.mp hj with rfl | hj
        · refine ⟨data, h, ?_⟩
          show (read_sample_type_loop usb rest _ _).IQ j = _
          rw [ih2 j hi]
          by_cases hb : (data 0 / 2 ^ 3) % 2 = 1
          · have hp : ((data 0 >>> 3) &&& 1) ≠ 0 := (enable_bit (data 0)).mpr hb
            simp only [if_true, if_pos hb, if_pos hp]
          · have : ¬ ((data 0 >>> 3) &&& 1) ≠ 0 := fun hc => hb ((enable_bit (data 0)).mp hc)
            simp only [if_true, if_neg hb, if_neg this]
        · exact ih1 j hj
      · have hji : j ≠ i := fun e => hj (e ▸ List.mem_cons_self _ _)
        have hjr : j ∉ rest := fun e => hj (List.mem_cons_of_mem _ e)
        show (read_sample_type_loop usb rest _ _).IQ j = _
        rw [ih2 j hjr, if_neg hji]

theorem read_sample_type_loop_reqs (usb : usb_t) (f : Nat) (post : List Nat)
    (hf : usb (req_value f) = none) :
    ∀ (pre : List Nat) (IQ : Nat → Int) (reqs : List Nat),
      (∀ i ∈ pre, (usb (req_value i)).isSome = true) →
      (read_sample_type_loop usb (pre ++ f :: post) IQ reqs).ret = 0
      ∧ (read_sample_type_loop usb (pre ++ f :: post) IQ reqs).reqs
          = reqs ++ (pre ++ [f]).map req_value := by
  intro pre
  induction pre with
  | nil =>
    intro IQ reqs _
    simp [read_sample_type_loop, hf]
  | cons i rest ih =>
    intro IQ reqs hpre
    have hi := hpre i (List.mem_cons_self _ _)
    obtain ⟨data, hd⟩ := Option.isSome_iff_exists.mp hi
    have := ih (fun j => if j = i then (if ((data 0 >>> 3) &&& 1) ≠ 0 then 2 else 1) else IQ j)
      (reqs ++ [req_value i]) (fun j hj => hpre j (List.mem_cons_of_mem _ hj))
    simp only [List.cons_append, read_sample_type_loop, hd]
    simpa using this

theorem range_split (n f : Nat) (hf : f < n) :
    List.range n = List.range f ++ f :: (List.range (n - (f + 1))).map (fun x => f + 1 + x) := by
  have h : n = (f + 1) + (n - (f + 1)) := by omega
  conv_lhs => rw [h, List.range_add, List.range_succ]
  simp

/-- C10: with the control request an oracle that, per request value, either
fails or returns four bytes: `read_sample_type` returns 1 if and only if the
request succeeds for every channel `i < SDR_MAX_CH` (and returns 0 otherwise);
on success the format code of every channel is 2 (IQ) when bit 3 of the first
returned byte is set and 1 (I only) otherwise, hence never 0 (RAW); and when
the request for channel `f` is the first to fail, the function returns 0
having issued the requests of channels `0 .. f` only. -/
theorem C10_read_sample_type (usb : usb_t) (SDR_MAX_CH : Nat) (IQ : Nat → Int) :
    ((read_sample_type usb SDR_MAX_CH IQ).ret = 1
        ↔ ∀ i, i < SDR_MAX_CH → (usb (req_value i)).isSome = true)
    ∧ ((read_sample_type usb SDR_MAX_CH IQ).ret = 1 ∨ (read_sample_type usb SDR_MAX_CH IQ).ret = 0)
    ∧ ((read_sample_type usb SDR_MAX_CH IQ).ret = 1 →
        ∀ i, i < SDR_MAX_CH → ∃ data, usb (req_value i) = some data
          ∧ (read_sample_type usb SDR_MAX_CH IQ).IQ i
              = (if (data 0 / 2 ^ 3) % 2 = 1 then 2 else 1)
          ∧ (read_sample_type usb SDR_MAX_CH IQ).IQ i ≠ 0)
    ∧ (∀ f, f < SDR_MAX_CH → usb (req_value f) = none →
        (∀ i, i < f → (usb (req_value i)).isSome = true) →
        (read_sample_type usb SDR_MAX_CH IQ).ret = 0
        ∧ (read_sample_type usb SDR_MAX_CH IQ).reqs = (List.range (f + 1)).map req_value) := by
  unfold read_sample_type
  refine ⟨?_, ?_, ?_, ?_⟩
  · rcases read_sample_type_loop_ret usb (List.range SDR_MAX_CH) IQ [] with
      ⟨h1, h2⟩ | ⟨h1, j, hj, h2⟩
    · exact ⟨fun _ i hi => h2 i (List.mem_range.mpr hi), fun _ => h1⟩
    · constructor
      · intro h; rw [h1] at h; exact absurd h (by decide)
      · intro h
        have := h j (List.mem_range.mp hj)
        rw [h2] at this
        exact absurd this (by decide)
  · rcases read_sample_type_loop_ret usb (List.range SDR_MAX_CH) IQ [] with
      ⟨h1, _⟩ | ⟨h1, _⟩
    · exact Or.inl h1
    · exact Or.inr h1
  · intro hret i hi
    obtain ⟨data, hd, hv⟩ :=
      (read_sample_type_loop_IQ usb (List.range SDR_MAX_CH) IQ [] (List.nodup_range _) hret).1 i
        (List.mem_range.mpr hi)
    refine ⟨data, hd, hv, ?_⟩
    rw [hv]
    split_ifs <;> decide
  · intro f hf hnone hpre
    rw [range_split SDR_MAX_CH f hf]
    have := read_sample_type_loop_reqs usb f
      ((List.range (SDR_MAX_CH - (f + 1))).map (fun x => f + 1 + x)) hnone (List.range f) IQ []
      (fun i hi => hpre i (List.mem_range.mp hi))
    rw [List.range_succ]
    simpa using this

/-! ## Ring buffer: proofs -/

theorem step_in_range (M : Nat) (hM : 0 < M) (dev : sdr_dev_t) (op : Op)
    (h : dev.rp < M ∧ dev.wp < M) : (step M dev op).rp < M ∧ (step M dev op).wp < M := by
  cases op with
  | push data =>
    simp only [step, write_buff]
    split_ifs
    · exact h
    · exact ⟨h.1, Nat.mod_lt _ hM⟩
  | pop =>
    simp only [step, read_buff]
    split_ifs
    · exact h
    · exact ⟨Nat.mod_lt _ hM, h.2⟩

theorem run_in_range (M : Nat) (hM : 0 < M) (ops : List Op) :
    ∀ dev : sdr_dev_t, dev.rp < M ∧ dev.wp < M →
      (run M dev ops).rp < M ∧ (run M dev ops).wp < M := by
  induction ops with
  | nil => intro dev h; exact h
  | cons op ops ih =>
    intro dev h
    exact ih (step M dev op) (step_in_range M hM dev op h)

theorem pending_count_bounds (M : Nat) (hM : 0 < M) (dev : sdr_dev_t) :
    0 ≤ pending_count M dev ∧ pending_count M dev ≤ (M : Int) - 1 := by
  have hpos : (0 : Int) < (M : Int) := by exact_mod_cast hM
  unfold pending_count
  constructor
  · exact Int.emod_nonneg _ (ne_of_gt hpos)
  · have := Int.emod_lt_of_pos ((dev.wp : Int) - (dev.rp : Int)) hpos
    omega

theorem pending_full (M : Nat) (dev : sdr_dev_t) (hr : dev.rp < M) (hw : dev.wp < M)
    (hp : pending_count M dev = (M : Int) - 1) : (dev.wp + 1) % M = dev.rp := by
  unfold pending_count at hp
  by_cases hle : dev.rp ≤ dev.wp
  · have h1 : ((dev.wp : Int) - (dev.rp : Int)) % (M : Int) = (dev.wp : Int) - (dev.rp : Int) :=
      Int.emod_eq_of_lt (by omega) (by omega)
    rw [h1] at hp
    have hw1 : dev.wp + 1 = M := by omega
    have hr0 : dev.rp = 0 := by omega
    rw [hw1, Nat.mod_self, hr0]
  · have h1 : ((dev.wp : Int) - (dev.rp : Int)) % (M : Int)
        = (dev.wp : Int) - (dev.rp : Int) + (M : Int) := by
      rw [← Int.add_mul_emod_self (b := 1), Int.one_mul]
      exact Int.emod_eq_of_lt (by omega) (by omega)
    rw [h1] at hp
    have : dev.wp + 1 = dev.rp := by omega
    rw [this]
    exact Nat.mod_eq_of_lt hr

/-- C4: with `0 < SDR_MAX_BUFF`, after any finite sequence of `write_buff` and
`read_buff` calls on a handle opened with `rp = wp = 0`, both indices are below
`SDR_MAX_BUFF` and `pending_count = (wp - rp) mod SDR_MAX_BUFF` lies between 0
and `SDR_MAX_BUFF - 1`; and on every handle with indices in range and
`pending_count = SDR_MAX_BUFF - 1`, `write_buff` returns 0 and leaves the
handle (`wp`, `rp` and every slot of `buff`) as it was. -/
theorem C4_ring_invariant (SDR_MAX_BUFF : Nat) (IQ : Nat → Int) (buff0 : Nat → Ptr)
    (ops : List Op) (hM : 0 < SDR_MAX_BUFF) :
    ((run SDR_MAX_BUFF (sdr_dev_open_state IQ buff0) ops).rp < SDR_MAX_BUFF
      ∧ (run SDR_MAX_BUFF (sdr_dev_open_state IQ buff0) ops).wp < SDR_MAX_BUFF
      ∧ 0 ≤ pending_count SDR_MAX_BUFF (run SDR_MAX_BUFF (sdr_dev_open_state IQ buff0) ops)
      ∧ pending_count SDR_MAX_BUFF (run SDR_MAX_BUFF (sdr_dev_open_state IQ buff0) ops)
          ≤ (SDR_MAX_BUFF : Int) - 1)
    ∧ (∀ (dev : sdr_dev_t) (data : Ptr), dev.rp < SDR_MAX_BUFF → dev.wp < SDR_MAX_BUFF →
        pending_count SDR_MAX_BUFF dev = (SDR_MAX_BUFF : Int) - 1 →
        write_buff SDR_MAX_BUFF dev data = (0, dev)) := by
  have hr := run_in_range SDR_MAX_BUFF hM ops (sdr_dev_open_state IQ buff0) ⟨hM, hM⟩
  have hb := pending_count_bounds SDR_MAX_BUFF hM
    (run SDR_MAX_BUFF (sdr_dev_open_state IQ buff0) ops)
  refine ⟨⟨hr.1, hr.2, hb.1, hb.2⟩, fun dev data h1 h2 hp => ?_⟩
  have := pending_full SDR_MAX_BUFF dev h1 h2 hp
  simp [write_buff, this]

/-- Witness for C4: four slots, three accepted pushes fill the pool, a pop
and a push follow; the handle with `rp = 0`, `wp = 3` rejects a push. -/
theorem C4_ring_invariant_witness :
    ((run 4 (sdr_dev_open_state (fun _ => 2) (fun _ => none))
          [Op.push (some [1]), Op.push (some [2]), Op.push (some [3]), Op.pop,
            Op.push (some [4])]).rp < 4
      ∧ (run 4 (sdr_dev_open_state (fun _ => 2) (fun _ => none))
          [Op.push (some [1]), Op.push (some [2]), Op.push (some [3]), Op.pop,
            Op.push (some [4])]).wp < 4
      ∧ 0 ≤ pending_count 4 (run 4 (sdr_dev_open_state (fun _ => 2) (fun _ => none))
          [Op.push (some [1]), Op.push (some [2]), Op.push (some [3]), Op.pop,
            Op.push (some [4])])
      ∧ pending_count 4 (run 4 (sdr_dev_open_state (fun _ => 2) (fun _ => none))
          [Op.push (some [1]), Op.push (some [2]), Op.push (some [3]), Op.pop,
            Op.push (some [4])]) ≤ ((4 : Nat) : Int) - 1)
    ∧ (∀ (dev : sdr_dev_t) (data : Ptr), dev.rp < 4 → dev.wp < 4 →
        pending_count 4 dev = ((4 : Nat) : Int) - 1 →
        write_buff 4 dev data = (0, dev)) :=
  C4_ring_invariant 4 (fun _ => 2) (fun _ => none)
    [Op.push (some [1]), Op.push (some [2]), Op.push (some [3]), Op.pop, Op.push (some [4])]
    (by decide)

/-- C7: on every handle with an empty pool (`rp = wp`), whatever the table,
the constants and the two output regions hold, `sdr_dev_data` ends at the first
test of its loop (any positive iteration bound suffices), returns 0, reports
`n[0] = n[1] = 0`, and leaves both output regions and the handle (`rp`, `wp`
and the slots) as they were. -/
theorem C7_sdr_dev_data_empty (L : LUT_t) (SDR_MAX_BUFF SDR_SIZE_BUFF fuel : Nat)
    (dev : sdr_dev_t) (buff0 buff1 : Out) (hempty : dev.rp = dev.wp) (hfuel : 0 < fuel) :
    sdr_dev_data L SDR_MAX_BUFF SDR_SIZE_BUFF fuel dev buff0 buff1
      = some ⟨0, 0, 0, buff0, buff1, dev⟩ := by
  obtain ⟨f, rfl⟩ : ∃ f, fuel = f + 1 := ⟨fuel - 1, by omega⟩
  simp [sdr_dev_data, sdr_dev_data_loop, read_buff, hempty]

/-- Witness for C7: an empty pool with `rp = wp = 2`. -/
theorem C7_sdr_dev_data_empty_witness :
    sdr_dev_data (gen_LUT LUT_init) 4 4 1 ⟨fun _ => 2, 2, 2, fun _ => some [1, 2, 3, 4]⟩
        (fun _ => 7) (fun _ => 9)
      = some ⟨0, 0, 0, fun _ => 7, fun _ => 9,
          ⟨fun _ => 2, 2, 2, fun _ => some [1, 2, 3, 4]⟩⟩ :=
  C7_sdr_dev_data_empty (gen_LUT LUT_init) 4 4 1 ⟨fun _ => 2, 2, 2, fun _ => some [1, 2, 3, 4]⟩
    (fun _ => 7) (fun _ => 9) rfl (by decide)

theorem push_all_spec (M : Nat) :
    ∀ (ds : List Ptr) (dev : sdr_dev_t), dev.rp = 0 → dev.wp + ds.length < M →
      (push_all M dev ds).1 = List.replicate ds.length 1
      ∧ (push_all M dev ds).2.IQ = dev.IQ
      ∧ (push_all M dev ds).2.rp = 0
      ∧ (push_all M dev ds).2.wp = dev.wp + ds.length
      ∧ ∀ i, (push_all M dev ds).2.buff i
          = if dev.wp < i ∧ i ≤ dev.wp + ds.length then ds.getD (i - dev.wp - 1) none
            else dev.buff i := by
  intro ds
  induction ds with
  | nil =>
    intro dev _ _
    refine ⟨rfl, rfl, by assumption, rfl, fun i => ?_⟩
    have : ¬ (dev.wp < i ∧ i ≤ dev.wp + ([] : List Ptr).length) := by
      simp only [List.length_nil]; omega
    rw [if_neg this]; rfl
  | cons d ds ih =>
    intro dev hrp hlen
    simp only [List.length_cons] at hlen
    have hmod : (dev.wp + 1) % M = dev.wp + 1 := Nat.mod_eq_of_lt (by omega)
    have hw : write_buff M dev d
        = (1, ⟨dev.IQ, dev.rp, dev.wp + 1, fun i => if i = dev.wp + 1 then d else dev.buff i⟩) := by
      unfold write_buff
      simp only [hmod]
      rw [if_neg (by omega)]
    obtain ⟨h1, h2, h3, h4, h5⟩ := ih (write_buff M dev d).2 (by rw [hw]; exact hrp)
      (by rw [hw]; show dev.wp + 1 + ds.length < M; omega)
    simp only [push_all]
    refine ⟨?_, ?_, ?_, ?_, fun i => ?_⟩
    · rw [h1, hw]; rfl
    · rw [h2, hw]
    · exact h3
    · rw [h4, hw]; simp only [List.length_cons]; omega
    · rw [h5, hw]
      simp only [List.length_cons]
      by_cases hi1 : i = dev.wp + 1
      · subst hi1
        have e : dev.wp + 1 - dev.wp - 1 = 0 := by omega
        rw [if_neg (by omega), if_pos (by omega), if_pos (by omega), e]
        rfl
      · by_cases hi2 : dev.wp + 1 < i ∧ i ≤ dev.wp + 1 + ds.length
        · rw [if_pos hi2, if_pos (by omega)]
          obtain ⟨t, rfl⟩ : ∃ t, i = dev.wp + 1 + (t + 1) := ⟨i - dev.wp - 2, by omega⟩
          have e1 : dev.wp + 1 + (t + 1) - (dev.wp + 1) - 1 = t := by omega
          have e2 : dev.wp + 1 + (t + 1) - dev.wp - 1 = t + 1 := by omega
          rw [e1, e2]; simp
        · rw [if_neg hi2, if_neg hi1, if_neg (by omega)]

theorem pop_n_spec (M : Nat) :
    ∀ (n : Nat) (dev : sdr_dev_t), dev.rp + n ≤ dev.wp → dev.wp < M →
      (pop_n M n dev).1 = (List.range n).map (fun i => dev.buff (dev.rp + i))
      ∧ (pop_n M n dev).2 = ⟨dev.IQ, dev.rp + n, dev.wp, dev.buff⟩ := by
  intro n
  induction n with
  | zero => intro dev _ _; exact ⟨rfl, rfl⟩
  | succ n ih =>
    intro dev h1 h2
    have hmod : (dev.rp + 1) % M = dev.rp + 1 := Nat.mod_eq_of_lt (by omega)
    have hr : read_buff M dev = (dev.buff dev.rp, ⟨dev.IQ, dev.rp + 1, dev.wp, dev.buff⟩) := by
      unfold read_buff
      rw [if_neg (by omega), hmod]
    obtain ⟨ih1, ih2⟩ := ih (read_buff M dev).2 (by rw [hr]; show dev.rp + 1 + n ≤ dev.wp; omega)
      (by rw [hr]; exact h2)
    simp only [pop_n]
    refine ⟨?_, ?_⟩
    · rw [ih1, hr, List.range_succ_eq_map]
      simp only [List.map_cons, List.map_map, Nat.add_zero]
      congr 1
      apply List.map_congr_left
      intro i _
      show dev.buff (dev.rp + 1 + i) = dev.buff (dev.rp + (i + 1))
      congr 1; omega
    · rw [ih2, hr]
      show (⟨dev.IQ, dev.rp + 1 + n, dev.wp, dev.buff⟩ : sdr_dev_t) = _
      congr 1; omega

/-- C3 (behaviour of the code): on a handle opened with `rp = wp = 0` and
slots `buff0`, `k < SDR_MAX_BUFF` calls of `write_buff` with buffers
`d1 .. dk` are all accepted, and the next `k` calls of `read_buff` return
first the content `buff0[0]` of slot 0, which no `write_buff` has assigned, and
then `d1 .. d(k-1)`: call `i` returns the buffer pushed one call before the
`i`-th, so the buffers are not returned as `d1 .. dk`. -/
theorem C3_read_buff_lags_write_buff (M : Nat) (IQ : Nat → Int) (buff0 : Nat → Ptr) (ds : List Ptr)
    (hk : ds.length < M) :
    (push_all M (sdr_dev_open_state IQ buff0) ds).1 = List.replicate ds.length 1
    ∧ (pop_n M ds.length (push_all M (sdr_dev_open_state IQ buff0) ds).2).1.length = ds.length
    ∧ ∀ i, i < ds.length →
        (pop_n M ds.length (push_all M (sdr_dev_open_state IQ buff0) ds).2).1.getD i none
          = if i = 0 then buff0 0 else ds.getD (i - 1) none := by
  obtain ⟨h1, h2, h3, h4, h5⟩ := push_all_spec M ds (sdr_dev_open_state IQ buff0) rfl
    (by show 0 + ds.length < M; omega)
  have h4' : (push_all M (sdr_dev_open_state IQ buff0) ds).2.wp = ds.length := by
    rw [h4]; show 0 + ds.length = _; omega
  obtain ⟨p1, _⟩ := pop_n_spec M ds.length (push_all M (sdr_dev_open_state IQ buff0) ds).2
    (by rw [h3, h4']; omega) (by rw [h4']; exact hk)
  refine ⟨h1, by rw [p1]; simp, fun i hi => ?_⟩
  rw [p1, List.getD_eq_getElem _ _ (by simpa using hi)]
  simp only [List.getElem_map, List.getElem_range, h3, h5]
  show (if 0 < 0 + i ∧ 0 + i ≤ 0 + ds.length then ds.getD (0 + i - 0 - 1) none else buff0 (0 + i)) = _
  by_cases hi0 : i = 0
  · subst hi0; simp
  · rw [if_pos (by omega), if_neg hi0]
    congr 1; omega

/-- Witness for C3 at the failing input: four slots, all `NULL` at open
time, and the distinct buffers `[1]`, `[2]` pushed: the two pops return `NULL`
and `[1]`, not `[1]` and `[2]`. -/
theorem C3_read_buff_lags_write_buff_witness :
    ((push_all 4 (sdr_dev_open_state (fun _ => 2) (fun _ => none)) [some [1], some [2]]).1
        = List.replicate ([some [1], some [2]] : List Ptr).length 1
      ∧ (pop_n 4 ([some [1], some [2]] : List Ptr).length
          (push_all 4 (sdr_dev_open_state (fun _ => 2) (fun _ => none))
            [some [1], some [2]]).2).1.length = ([some [1], some [2]] : List Ptr).length
      ∧ ∀ i, i < ([some [1], some [2]] : List Ptr).length →
          (pop_n 4 ([some [1], some [2]] : List Ptr).length
            (push_all 4 (sdr_dev_open_state (fun _ => 2) (fun _ => none))
              [some [1], some [2]]).2).1.getD i none
            = if i = 0 then (fun _ => none) 0
              else ([some [1], some [2]] : List Ptr).getD (i - 1) none)
    ∧ (pop_n 4 2 (push_all 4 (sdr_dev_open_state (fun _ => 2) (fun _ => none))
          [some [1], some [2]]).2).1 = [none, some [1]]
    ∧ (pop_n 4 2 (push_all 4 (sdr_dev_open_state (fun _ => 2) (fun _ => none))
          [some [1], some [2]]).2).1 ≠ [some [1], some [2]] :=
  ⟨C3_read_buff_lags_write_buff 4 (fun _ => 2) (fun _ => none) [some [1], some [2]]
      (by decide), by decide, by decide⟩

/-- C5 (behaviour of the code): on a handle opened with `rp = wp = 0` whose
slot 0 is `NULL`, after `N` buffers with `1 ≤ N < SDR_MAX_BUFF` were pushed by
`write_buff`, one call of `sdr_dev_data` pops the `NULL` of slot 0 and stops:
it returns 0 and reports `n[0] = n[1] = 0`, whatever the formats are, with the
output regions untouched, `rp = 1` and `wp = N`. -/
theorem C5_sdr_dev_data_after_push (L : LUT_t) (SDR_MAX_BUFF SDR_SIZE_BUFF fuel : Nat)
    (IQ : Nat → Int) (buff0 : Nat → Ptr) (ds : List Ptr) (b0 b1 : Out)
    (hnull : buff0 0 = none) (hN : 1 ≤ ds.length) (hk : ds.length < SDR_MAX_BUFF)
    (hfuel : 0 < fuel) :
    ∃ r, sdr_dev_data L SDR_MAX_BUFF SDR_SIZE_BUFF fuel
          (push_all SDR_MAX_BUFF (sdr_dev_open_state IQ buff0) ds).2 b0 b1 = some r
      ∧ r.ret = 0 ∧ r.n0 = 0 ∧ r.n1 = 0 ∧ r.buff0 = b0 ∧ r.buff1 = b1
      ∧ r.dev.rp = 1 ∧ r.dev.wp = ds.length := by
  obtain ⟨_, _, h3, h4, h5⟩ := push_all_spec SDR_MAX_BUFF ds (sdr_dev_open_state IQ buff0) rfl
    (by show 0 + ds.length < SDR_MAX_BUFF; omega)
  have h4' : (push_all SDR_MAX_BUFF (sdr_dev_open_state IQ buff0) ds).2.wp = ds.length := by
    rw [h4]; show 0 + ds.length = _; omega
  have hslot : (push_all SDR_MAX_BUFF (sdr_dev_open_state IQ buff0) ds).2.buff 0 = none := by
    rw [h5, if_neg (by omega)]; exact hnull
  obtain ⟨f, rfl⟩ : ∃ f, fuel = f + 1 := ⟨fuel - 1, by omega⟩
  have hmod : (0 + 1) % SDR_MAX_BUFF = 1 := Nat.mod_eq_of_lt (by omega)
  have hread : read_buff SDR_MAX_BUFF (push_all SDR_MAX_BUFF (sdr_dev_open_state IQ buff0) ds).2
      = (none, ⟨(push_all SDR_MAX_BUFF (sdr_dev_open_state IQ buff0) ds).2.IQ, 1,
          (push_all SDR_MAX_BUFF (sdr_dev_open_state IQ buff0) ds).2.wp,
          (push_all SDR_MAX_BUFF (sdr_dev_open_state IQ buff0) ds).2.buff⟩) := by
    unfold read_buff
    rw [h3, if_neg (by rw [h4']; omega), hslot, hmod]
  refine ⟨⟨0, 0, 0, b0, b1,
    ⟨(push_all SDR_MAX_BUFF (sdr_dev_open_state IQ buff0) ds).2.IQ, 1,
      (push_all SDR_MAX_BUFF (sdr_dev_open_state IQ buff0) ds).2.wp,
      (push_all SDR_MAX_BUFF (sdr_dev_open_state IQ buff0) ds).2.buff⟩⟩,
    ?_, rfl, rfl, rfl, rfl, rfl, rfl, h4'⟩
  rw [sdr_dev_data, sdr_dev_data_loop, hread]

/-- Witness for C5 at the failing input: four slots, all `NULL` at open
time, both channels in I/Q format, one buffer of four bytes pushed: the byte
count reported for each channel is 0, not `2 * 1 * 4`. -/
theorem C5_sdr_dev_data_after_push_witness :
    ∃ r, sdr_dev_data (gen_LUT LUT_init) 4 4 4
          (push_all 4 (sdr_dev_open_state (fun _ => 2) (fun _ => none))
            [some [0x69, 0x69, 0x69, 0x69]]).2 (fun _ => 0) (fun _ => 0) = some r
      ∧ r.ret = 0 ∧ r.n0 = 0 ∧ r.n1 = 0 ∧ r.buff0 = (fun _ => 0) ∧ r.buff1 = (fun _ => 0)
      ∧ r.dev.rp = 1 ∧ r.dev.wp = ([some [0x69, 0x69, 0x69, 0x69]] : List Ptr).length :=
  C5_sdr_dev_data_after_push (gen_LUT LUT_init) 4 4 4 (fun _ => 2) (fun _ => none)
    [some [0x69, 0x69, 0x69, 0x69]] (fun _ => 0) (fun _ => 0) rfl (by decide) (by decide)
    (by decide)

/-! ## Draining the pool: proofs -/

theorem LUT_fixed : gen_LUT LUT_init 0 0 0x69 = 3 ∧ gen_LUT LUT_init 0 1 0x69 = -1
    ∧ gen_LUT LUT_init 1 0 0x69 = -1 ∧ gen_LUT LUT_init 1 1 0x69 = 3 := by
  refine ⟨?_, ?_, ?_, ?_⟩ <;>
    (rw [LUT_entry _ _ _ (by decide) (by decide) (by decide)]; decide)

theorem fixed_buffer_getD (S j : Nat) (hj : j < S) : (fixed_buffer S).getD j 0 = 0x69 := by
  unfold fixed_buffer
  rw [List.getD_eq_getElem _ _ (by simpa using hj)]
  simp

theorem copy_data_fixed (S : Nat) (hS : 4 ∣ S) (buff : Out) (base : Nat) :
    (∀ ch, (copy_data (gen_LUT LUT_init) S (fixed_buffer S) ch 2 buff base).1 = 2 * S)
    ∧ (∀ q, (copy_data (gen_LUT LUT_init) S (fixed_buffer S) 0 2 buff base).2 q
        = if base ≤ q ∧ q < base + 2 * S then (if (q - base) % 2 = 0 then 3 else -1)
          else buff q)
    ∧ (∀ q, (copy_data (gen_LUT LUT_init) S (fixed_buffer S) 1 2 buff base).2 q
        = if base ≤ q ∧ q < base + 2 * S then (if (q - base) % 2 = 0 then -1 else 3)
          else buff q) := by
  obtain ⟨l00, l01, l10, l11⟩ := LUT_fixed
  refine ⟨fun ch => (copy_data_IQ_run _ S _ ch buff base hS).1, fun q => ?_, fun q => ?_⟩
  · rw [(copy_data_IQ_run _ S _ 0 buff base hS).2 q]
    by_cases hq : base ≤ q ∧ q < base + 2 * S
    · rw [if_pos hq, if_pos hq, fixed_buffer_getD S _ (by omega)]
      by_cases hp : (q - base) % 2 = 0
      · rw [if_pos hp, hp, l00]
      · have : (q - base) % 2 = 1 := by omega
        rw [if_neg hp, this, l01]
    · rw [if_neg hq, if_neg hq]
  · rw [(copy_data_IQ_run _ S _ 1 buff base hS).2 q]
    by_cases hq : base ≤ q ∧ q < base + 2 * S
    · rw [if_pos hq, if_pos hq, fixed_buffer_getD S _ (by omega)]
      by_cases hp : (q - base) % 2 = 0
      · rw [if_pos hp, hp, l10]
      · have : (q - base) % 2 = 1 := by omega
        rw [if_neg hp, this, l11]
    · rw [if_neg hq, if_neg hq]

theorem ring_next_ne (M r k : Nat) (hr : r < M) (hk : k + 1 < M) : r ≠ (r + (k + 1)) % M := by
  by_cases h : r + (k + 1) < M
  · rw [Nat.mod_eq_of_lt h]; omega
  · rw [Nat.mod_eq_sub_mod (by omega), Nat.mod_eq_of_lt (by omega)]; omega

theorem drain_fixed (M S : Nat) (hS : 4 ∣ S) :
    ∀ (k fuel : Nat) (dev : sdr_dev_t) (b0 b1 : Out) (n0 n1 size : Nat),
      k < fuel → k < M → dev.rp < M → dev.wp = (dev.rp + k) % M →
      dev.IQ 0 = 2 → dev.IQ 1 = 2 →
      (∀ i, i < k → dev.buff ((dev.rp + i) % M) = some (fixed_buffer S)) →
      ∃ r, sdr_dev_data_loop (gen_LUT LUT_init) M S fuel dev b0 b1 n0 n1 size = some r
        ∧ r.ret = size + k * S ∧ r.n0 = n0 + 2 * (k * S) ∧ r.n1 = n1 + 2 * (k * S)
        ∧ r.dev = ⟨dev.IQ, dev.wp, dev.wp, dev.buff⟩
        ∧ (∀ q, r.buff0 q = if n0 ≤ q ∧ q < n0 + 2 * (k * S)
            then (if (q - n0) % 2 = 0 then 3 else -1) else b0 q)
        ∧ (∀ q, r.buff1 q = if n1 ≤ q ∧ q < n1 + 2 * (k * S)
            then (if (q - n1) % 2 = 0 then -1 else 3) else b1 q) := by
  intro k
  induction k with
  | zero =>
    intro fuel dev b0 b1 n0 n1 size hf _ hr hw _ _ _
    obtain ⟨f, rfl⟩ : ∃ f, fuel = f + 1 := ⟨fuel - 1, by omega⟩
    have hwp : dev.wp = dev.rp := by rw [hw, Nat.add_zero, Nat.mod_eq_of_lt hr]
    refine ⟨⟨size, n0, n1, b0, b1, dev⟩, ?_, by simp, by simp, by simp, ?_, ?_, ?_⟩
    · simp [sdr_dev_data_loop, read_buff, hwp]
    · cases dev; simp at hwp ⊢; exact hwp.symm
    · intro q; rw [if_neg (by omega)]
    · intro q; rw [if_neg (by omega)]
  | succ k ih =>
    intro fuel dev b0 b1 n0 n1 size hf hk hr hw hq0 hq1 hb
    obtain ⟨f, rfl⟩ : ∃ f, fuel = f + 1 := ⟨fuel - 1, by omega⟩
    have hne : dev.rp ≠ dev.wp := by rw [hw]; exact ring_next_ne M dev.rp k hr hk
    have hslot : dev.buff dev.rp = some (fixed_buffer S) := by
      have := hb 0 (by omega)
      rwa [Nat.add_zero, Nat.mod_eq_of_lt hr] at this
    have hread : read_buff M dev
        = (some (fixed_buffer S), ⟨dev.IQ, (dev.rp + 1) % M, dev.wp, dev.buff⟩) := by
      unfold read_buff
      rw [if_neg hne, hslot]
    obtain ⟨c1, c3, _⟩ := copy_data_fixed S hS b0 n0
    obtain ⟨e1, _, e3⟩ := copy_data_fixed S hS b1 n1
    have hM : 0 < M := by omega
    obtain ⟨r, hr1, hr2, hr3, hr4, hr5, hr6, hr7⟩ :=
      ih f ⟨dev.IQ, (dev.rp + 1) % M, dev.wp, dev.buff⟩
        (copy_data (gen_LUT LUT_init) S (fixed_buffer S) 0 2 b0 n0).2
        (copy_data (gen_LUT LUT_init) S (fixed_buffer S) 1 2 b1 n1).2
        (n0 + 2 * S) (n1 + 2 * S) (size + S) (by omega) (by omega) (Nat.mod_lt _ hM)
        (by
          show dev.wp = ((dev.rp + 1) % M + k) % M
          rw [hw, Nat.mod_add_mod]; congr 1; omega)
        hq0 hq1
        (by
          intro i hi
          show dev.buff (((dev.rp + 1) % M + i) % M) = _
          rw [Nat.mod_add_mod]
          have := hb (i + 1) (by omega)
          have e : dev.rp + 1 + i = dev.rp + (i + 1) := by omega
          rw [e]; exact this)
    have hks : (k + 1) * S = k * S + S := by ring
    refine ⟨r, ?_, ?_, ?_, ?_, hr5, ?_, ?_⟩
    · rw [sdr_dev_data_loop, hread]
      simp only [hq0, hq1, c1 0, e1 1]
      exact hr1
    · rw [hr2, hks]; omega
    · rw [hr3, hks]; omega
    · rw [hr4, hks]; omega
    · intro q
      rw [hr6, c3, hks]
      generalize k * S = T
      by_cases h1 : n0 + 2 * S ≤ q ∧ q < n0 + 2 * S + 2 * T
      · have h3 : n0 ≤ q ∧ q < n0 + 2 * (T + S) := by omega
        have h4 : (q - (n0 + 2 * S)) % 2 = (q - n0) % 2 := by omega
        rw [if_pos h1, if_pos h3, h4]
      · rw [if_neg h1]
        by_cases h2 : n0 ≤ q ∧ q < n0 + 2 * S
        · have h3 : n0 ≤ q ∧ q < n0 + 2 * (T + S) := by omega
          rw [if_pos h2, if_pos h3]
        · have h3 : ¬ (n0 ≤ q ∧ q < n0 + 2 * (T + S)) := by omega
          rw [if_neg h2, if_neg h3]
    · intro q
      rw [hr7, e3, hks]
      generalize k * S = T
      by_cases h1 : n1 + 2 * S ≤ q ∧ q < n1 + 2 * S + 2 * T
      · have h3 : n1 ≤ q ∧ q < n1 + 2 * (T + S) := by omega
        have h4 : (q - (n1 + 2 * S)) % 2 = (q - n1) % 2 := by omega
        rw [if_pos h1, if_pos h3, h4]
      · rw [if_neg h1]
        by_cases h2 : n1 ≤ q ∧ q < n1 + 2 * S
        · have h3 : n1 ≤ q ∧ q < n1 + 2 * (T + S) := by omega
          rw [if_pos h2, if_pos h3]
        · have h3 : ¬ (n1 ≤ q ∧ q < n1 + 2 * (T + S)) := by omega
          rw [if_neg h2, if_neg h3]

/-- C6 (amended): with both channels in I/Q format, `SDR_SIZE_BUFF` a multiple
of 4 and more than three slots, when the three slots `rp`, `rp + 1`, `rp + 2`
(modulo `SDR_MAX_BUFF`) that `read_buff` hands out next hold buffers of
`SDR_SIZE_BUFF` bytes `0b01101001` and `wp = rp + 3` (modulo `SDR_MAX_BUFF`),
one call of `sdr_dev_data` returns `3 * SDR_SIZE_BUFF` (the raw bytes
consumed), reports `n[0] = n[1] = 2 * 3 * SDR_SIZE_BUFF`, leaves `rp = wp`, and
the decoded stream is the repeating pattern `[+3, -1, ...]` for channel 0 and
`[-1, +3, ...]` for channel 1, with no byte written past it. -/
theorem C6_sdr_dev_data_three_fixed (SDR_MAX_BUFF SDR_SIZE_BUFF fuel : Nat) (dev : sdr_dev_t)
    (b0 b1 : Out) (hS : 4 ∣ SDR_SIZE_BUFF) (hM : 3 < SDR_MAX_BUFF) (hfuel : 3 < fuel)
    (hrp : dev.rp < SDR_MAX_BUFF) (hwp : dev.wp = (dev.rp + 3) % SDR_MAX_BUFF)
    (hIQ0 : dev.IQ 0 = 2) (hIQ1 : dev.IQ 1 = 2)
    (hslots : ∀ i, i < 3 →
      dev.buff ((dev.rp + i) % SDR_MAX_BUFF) = some (fixed_buffer SDR_SIZE_BUFF)) :
    ∃ r, sdr_dev_data (gen_LUT LUT_init) SDR_MAX_BUFF SDR_SIZE_BUFF fuel dev b0 b1 = some r
      ∧ r.ret = 3 * SDR_SIZE_BUFF
      ∧ r.n0 = 2 * 3 * SDR_SIZE_BUFF ∧ r.n1 = 2 * 3 * SDR_SIZE_BUFF
      ∧ r.dev = ⟨dev.IQ, dev.wp, dev.wp, dev.buff⟩
      ∧ (∀ q, q < 2 * 3 * SDR_SIZE_BUFF → r.buff0 q = if q % 2 = 0 then 3 else -1)
      ∧ (∀ q, q < 2 * 3 * SDR_SIZE_BUFF → r.buff1 q = if q % 2 = 0 then -1 else 3)
      ∧ (∀ q, 2 * 3 * SDR_SIZE_BUFF ≤ q → r.buff0 q = b0 q ∧ r.buff1 q = b1 q) := by
  obtain ⟨r, h1, h2, h3, h4, h5, h6, h7⟩ :=
    drain_fixed SDR_MAX_BUFF SDR_SIZE_BUFF hS 3 fuel dev b0 b1 0 0 0 hfuel hM hrp hwp hIQ0 hIQ1
      hslots
  refine ⟨r, h1, by omega, by omega, by omega, h5, fun q hq => ?_, fun q hq => ?_,
    fun q hq => ⟨?_, ?_⟩⟩
  · rw [h6, if_pos (by omega), Nat.sub_zero]
  · rw [h7, if_pos (by omega), Nat.sub_zero]
  · rw [h6, if_neg (by omega)]
  · rw [h7, if_neg (by omega)]

/-- Witness for C6 (amended): five slots, `rp = 3`, `wp = 1`, so that the three
pending slots 3, 4, 0 wrap around; every slot holds the fixed buffer. -/
theorem C6_sdr_dev_data_three_fixed_witness :
    ∃ r, sdr_dev_data (gen_LUT LUT_init) 5 4 4
          ⟨fun _ => 2, 3, 1, fun _ => some (fixed_buffer 4)⟩ (fun _ => 0) (fun _ => 0) = some r
      ∧ r.ret = 3 * 4
      ∧ r.n0 = 2 * 3 * 4 ∧ r.n1 = 2 * 3 * 4
      ∧ r.dev = ⟨fun _ => 2, 1, 1, fun _ => some (fixed_buffer 4)⟩
      ∧ (∀ q, q < 2 * 3 * 4 → r.buff0 q = if q % 2 = 0 then 3 else -1)
      ∧ (∀ q, q < 2 * 3 * 4 → r.buff1 q = if q % 2 = 0 then -1 else 3)
      ∧ (∀ q, 2 * 3 * 4 ≤ q → r.buff0 q = (fun _ => 0) q ∧ r.buff1 q = (fun _ => 0) q) :=
  C6_sdr_dev_data_three_fixed 5 4 4 ⟨fun _ => 2, 3, 1, fun _ => some (fixed_buffer 4)⟩
    (fun _ => 0) (fun _ => 0) (by decide) (by decide) (by decide) (by decide) (by decide)
    rfl rfl (fun _ _ => rfl)

set_option maxRecDepth 100000 in
/-- C6 (counterexample), with eight slots and buffers of four bytes.  On the
handle as opened with every slot `NULL`, after three completed transfers of
the fixed buffer, `sdr_dev_data` returns 0 and reports `n[0] = n[1] = 0`, not
`2 * 3 * 4`.  The table maps the byte `0b01101001` to `+3`, `-1` (channel 0, I
and Q) and `-1`, `+3` (channel 1), so neither `+1` nor `-3` is decoded from it.
Even with the fixed buffer in slot 0 at open time, so that three buffers are
decoded, the call returns `3 * 4`, not `2 * 3 * 4`, and the streams begin
`[+3, -1, +3, -1, ...]` and `[-1, +3, -1, +3, ...]`, not `[+3, +1, +3, -3, ...]`. -/
theorem C6_end_to_end_counterexample :
    ((end_to_end 8 4 (fun _ => none) 8).map (fun r => (r.ret, r.n0, r.n1)) = some (0, 0, 0)
      ∧ (end_to_end 8 4 (fun _ => none) 8).map (fun r => r.ret) ≠ some (2 * 3 * 4))
    ∧ (gen_LUT LUT_init 0 0 0x69, gen_LUT LUT_init 0 1 0x69, gen_LUT LUT_init 1 0 0x69,
        gen_LUT LUT_init 1 1 0x69) = (3, -1, -1, 3)
    ∧ ((end_to_end 8 4 (fun _ => some (fixed_buffer 4)) 8).map
          (fun r => (r.ret, r.n0, r.n1, (List.range 8).map r.buff0, (List.range 8).map r.buff1))
        = some (12, 24, 24, [3, -1, 3, -1, 3, -1, 3, -1], [-1, 3, -1, 3, -1, 3, -1, 3])
      ∧ (end_to_end 8 4 (fun _ => some (fixed_buffer 4)) 8).map (fun r => r.ret)
          ≠ some (2 * 3 * 4)
      ∧ (end_to_end 8 4 (fun _ => some (fixed_buffer 4)) 8).map
          (fun r => (List.range 4).map r.buff0) ≠ some [3, 1, 3, -3]) := by
  decide

end PocketSDR
